import Mathlib

/-!
Verification development for the incremental sync engine of
`connectors/byoei.py` and the mapping-merge helper `_DeepChainMap` of
`connectors/es/management_client.py`.

The Python code is shallowly embedded:

* a Python `dict` whose values the engine treats as opaque scalars is a
  `PyDict` (an association list; `dict` lookup is first-match, `dict`
  assignment is modelled by `PyDict.set`, `dict.pop` by `PyDict.remove`);
* the items travelling on the `asyncio.Queue` named `stream` are
  `QueueItem` (the two sentinel strings "END_DOCS" / "END_DOWNLOADS"
  become the constructors `endDocs` / `endDownloads`);
* the coroutines `get_docs`, `get_attachments` and `_bulk` become pure
  functions from their inputs (the feed, the scheduled-download results,
  the queue contents) to the lists of items they push and the state they
  build.  `async_bulk` composes them in the canonical schedule in which
  the classification task finishes producing before the enrichment drain
  is read; all claims settled on `asyncBulk` are schedule independent;
* an exception is an `Option String` / `Except String` error value, and
  a task that has raised re-raises when awaited again;
* `iso_utc()` is a pass-level parameter `now` (no claim depends on two
  calls returning distinct values).
-/

/-- A Python `dict` with scalar (string-like) values, as an association
list in insertion order.  Lookup is first match, mirroring the unique-key
invariant of a real `dict`. -/
abbrev PyDict := List (String × String)

/-- `d[k]`, returning `none` where Python would raise `KeyError`. -/
def PyDict.lookup : PyDict → String → Option String
  | [], _ => none
  | (k, v) :: rest, key => if k = key then some v else PyDict.lookup rest key

/-- `d.pop(k)`'s effect on the dict: the key is removed. -/
def PyDict.remove (d : PyDict) (k : String) : PyDict :=
  d.filter fun p => decide (p.1 ≠ k)

/-- `d[k] = v`: replace the value if the key is present, else append. -/
def PyDict.set (d : PyDict) (k v : String) : PyDict :=
  if d.any (fun p => decide (p.1 = k)) then
    d.map fun p => if p.1 = k then (k, v) else p
  else
    d ++ [(k, v)]

/-- The `_op_type` field of a write-intent dict pushed onto `stream`. -/
inductive OpType where
  | update
  | delete
deriving DecidableEq, Repr

/-- A write-intent dict as pushed onto `stream` by `get_docs` (lines
176-184 and 192) and `get_attachments` (lines 202-210).  `doc` is the
value of the "doc" key; the delete intent of line 192 carries none,
which is what the body lookup `doc["doc"]` in `_bulk` observes. -/
structure WriteIntent where
  op : OpType
  index : String
  id : String
  doc : Option PyDict
deriving DecidableEq, Repr

/-- An item travelling on the queue `stream`: a write-intent dict or one
of the two sentinel strings. -/
inductive QueueItem where
  | intent (w : WriteIntent)
  | endDocs
  | endDownloads
deriving DecidableEq, Repr

/-- One line of a bulk request body as appended to `batch` in `_bulk`:
the action metadata `{op: {"_index": .., "_id": ..}}`, the update body
`{"doc": .., "doc_as_upsert": True}`, or the bare body `{"doc": ..}`. -/
inductive BulkLine where
  | action (op : OpType) (index : String) (id : String)
  | updateBody (doc : PyDict)
  | docBody (doc : PyDict)
deriving DecidableEq, Repr

/-- Lines 112-118 of `_bulk`: the lines appended to `batch` for one
popped write-intent, together with the exception, if any.  The action
metadata is appended first; then the body is appended, and the body
lookup `doc["doc"]` raises `KeyError` when the intent has no "doc"
key. -/
def intentLines (w : WriteIntent) : List BulkLine × Option String :=
  let meta := BulkLine.action w.op w.index w.id
  match w.doc with
  | none => ([meta], some "KeyError: doc")
  | some d =>
    if w.op = OpType.update then ([meta, BulkLine.updateBody d], none)
    else ([meta, BulkLine.docBody d], none)

/-- The mutable state of the `while True` loop of `_bulk`: the current
`batch`, the payloads of the dispatched `batch_bulk` calls (`ops`), and
the two end-marker flags. -/
structure BulkAcc where
  batch : List BulkLine
  ops : List (List BulkLine)
  docsEnded : Bool
  downloadsEnded : Bool
deriving DecidableEq, Repr

/-- How a run of `_bulk` over a finite queue content ends: `done` (broke
out of the loop after both markers, final flush performed), `blocked`
(queue exhausted, the writer is still awaiting `queue.get()`), or
`crashed` (an exception propagated out of the loop). -/
inductive BulkOutcome where
  | done
  | blocked
  | crashed (msg : String)
deriving DecidableEq, Repr

/-- Lines 124-126 of `_bulk`: after the loop, flush the remaining
partial batch if it is non-empty. -/
def flushFinal (acc : BulkAcc) : BulkAcc :=
  if acc.batch.isEmpty then acc
  else { acc with batch := [], ops := acc.ops ++ [acc.batch] }

/-- Lines 98-128 of `_bulk`: the draining loop, run over a finite list
of queue items (the writer pops them in order; when the list is
exhausted the writer is still blocked on `queue.get()`). -/
def bulkLoop (chunk : Nat) : List QueueItem → BulkAcc → BulkAcc × BulkOutcome
  | [], acc => (acc, BulkOutcome.blocked)
  | q :: rest, acc =>
    let acc1 :=
      match q with
      | QueueItem.endDocs => { acc with docsEnded := true }
      | QueueItem.endDownloads => { acc with downloadsEnded := true }
      | QueueItem.intent _ => acc
    if acc1.docsEnded && acc1.downloadsEnded then
      (flushFinal acc1, BulkOutcome.done)
    else
      match q with
      | QueueItem.endDocs => bulkLoop chunk rest acc1
      | QueueItem.endDownloads => bulkLoop chunk rest acc1
      | QueueItem.intent w =>
        match intentLines w with
        | (ls, some msg) => ({ acc1 with batch := acc1.batch ++ ls }, BulkOutcome.crashed msg)
        | (ls, none) =>
          let b := acc1.batch ++ ls
          if chunk * 2 ≤ b.length then
            bulkLoop chunk rest { acc1 with batch := [], ops := acc1.ops ++ [b] }
          else
            bulkLoop chunk rest { acc1 with batch := b }

/-- `_bulk` started on a fresh state (`batch = []`, no marker seen). -/
def bulkRun (chunk : Nat) (queue : List QueueItem) : BulkAcc × BulkOutcome :=
  bulkLoop chunk queue ⟨[], [], false, false⟩

/-- Every intent on the queue carries a "doc" body, so its batch lines
are produced without an exception. -/
def intentsOk (t : List QueueItem) : Bool :=
  t.all fun q =>
    match q with
    | QueueItem.intent w => w.doc.isSome
    | _ => true

example : bulkRun 2 [QueueItem.endDocs, QueueItem.endDownloads]
    = (⟨[], [], true, true⟩, BulkOutcome.done) := by decide

example : (bulkRun 2 [QueueItem.endDocs]).2 = BulkOutcome.blocked := by decide

/-- The eventual result of one scheduled `lazy_download(doit=True, ..)`
task: either an exception (re-raised every time the task is awaited) or
the value it returned (`None` or a dict). -/
abbrev DlTask := Except String (Option PyDict)

deriving instance DecidableEq for Except

/-- A `lazy_download` callable attached to one feed document.  `onSkip`
is what `lazy_download(doit=False)` does; `onRun ts` is what the task
created from `lazy_download(doit=True, timestamp=ts)` eventually
evaluates to. -/
structure LazyDl where
  onSkip : DlTask
  onRun : String → DlTask

/-- One step of the source generator consumed by `get_docs`: it either
yields a `(doc, lazy_download)` pair (`lazy_download` may be `None`), or
raises. -/
inductive FeedEvent where
  | item (doc : PyDict) (dl : Option LazyDl)
  | fail (msg : String)

/-- The observable effects of the `get_docs` task: the ids added to
`seen_ids`, the items pushed onto `stream`, the download tasks appended
to `self._downloads`, the ids whose `lazy_download(doit=False)` was
invoked, and the exception the task raised, if any. -/
structure GDocsOut where
  seen : List String
  puts : List QueueItem
  sched : List DlTask
  skips : List String
  err : Option String
deriving Repr

/-- Lines 169-185 of `get_docs`: schedule the download when a
`lazy_download` is present, then push the update write-intent for the
document (with `doc_as_upsert`, reflected in `intentLines`). -/
def emitDoc (index : String) (st : GDocsOut) (docId : String) (doc : PyDict)
    (ts : String) (dl : Option LazyDl) : GDocsOut :=
  let st2 :=
    match dl with
    | none => st
    | some f => { st with sched := st.sched ++ [f.onRun ts] }
  { st2 with puts := st2.puts ++ [QueueItem.intent ⟨OpType.update, index, docId, some doc⟩] }

/-- Lines 150-185 of `get_docs`: the body of the `async for` loop for a
single yielded `(doc, lazy_download)` pair.  `existingTs` is the
`existing_timestamps` dict built from the snapshot. -/
def processFeedItem (index : String) (existingTs : String → Option String) (now : String)
    (st : GDocsOut) (doc : PyDict) (dl : Option LazyDl) : GDocsOut :=
  match PyDict.lookup doc "_id" with
  | none => { st with err := some "KeyError: _id" }
  | some docId =>
    let doc1 := PyDict.set (PyDict.remove doc "_id") "id" docId
    let st1 := { st with seen := st.seen ++ [docId] }
    match PyDict.lookup doc1 "timestamp" with
    | some ts =>
      if ((existingTs docId).getD "") = ts then
        match dl with
        | none => { st1 with err := some "TypeError: lazy_download is not callable" }
        | some f =>
          match f.onSkip with
          | Except.error e => { st1 with err := some e }
          | Except.ok _ => { st1 with skips := st1.skips ++ [docId] }
      else
        emitDoc index st1 docId doc1 ts dl
    | none =>
      emitDoc index st1 docId (PyDict.set doc1 "timestamp" now) now dl

/-- The `async for doc in generator` loop of `get_docs`: an exception
raised by the generator or by the loop body propagates, ending the task
at that point. -/
def feedLoop (index : String) (existingTs : String → Option String) (now : String) :
    List FeedEvent → GDocsOut → GDocsOut
  | [], st => st
  | FeedEvent.fail msg :: _, st => { st with err := some msg }
  | FeedEvent.item doc dl :: rest, st =>
    let st1 := processFeedItem index existingTs now st doc dl
    if st1.err.isSome then st1 else feedLoop index existingTs now rest st1

/-- Lines 149-194: the whole `get_docs` task.  Only when the feed is
exhausted without an exception does it run the deletion sweep (one
delete write-intent per snapshot id not in `seen_ids`, "doc"-less as on
line 192) and push "END_DOCS". -/
def getDocs (index : String) (existingIds : List String)
    (existingTs : String → Option String) (now : String)
    (feed : List FeedEvent) : GDocsOut :=
  let st := feedLoop index existingTs now feed ⟨[], [], [], [], none⟩
  match st.err with
  | some _ => st
  | none =>
    let dels := (existingIds.filter fun i => decide (i ∉ st.seen)).map
      fun i => QueueItem.intent ⟨OpType.delete, index, i, none⟩
    { st with puts := st.puts ++ dels ++ [QueueItem.endDocs] }

/-- The ids yielded by the source generator (the value popped from the
"_id" key of each yielded doc). -/
def feedIds (feed : List FeedEvent) : List String :=
  feed.filterMap fun e =>
    match e with
    | FeedEvent.item doc _ => PyDict.lookup doc "_id"
    | FeedEvent.fail _ => none

/-- The id carried by a delete write-intent queue item. -/
def deleteIdOf : QueueItem → Option String
  | QueueItem.intent w => if w.op = OpType.delete then some w.id else none
  | _ => none

/-- Whether a queue item is an update write-intent. -/
def isUpdate : QueueItem → Bool
  | QueueItem.intent w => decide (w.op = OpType.update)
  | _ => false

/-- Lines 137-139 of `async_bulk`: `existing_ids` is a `set`, so the
snapshot ids deduplicate. -/
def snapshotIds (snap : PyDict) : List String :=
  (snap.map Prod.fst).dedup

/-- Lines 137-139 of `async_bulk`: `existing_timestamps` is a dict built
by successive assignment, so the last snapshot entry for an id wins. -/
def snapshotTs (snap : PyDict) : String → Option String :=
  fun id => PyDict.lookup snap.reverse id

/-- An element of `self._downloads` that `get_attachments` consumes
without raising: the awaited task either returned `None` or returned a
dict that has an "_id" key. -/
def dlStepOk : DlTask → Bool
  | Except.error _ => false
  | Except.ok none => true
  | Except.ok (some data) => (PyDict.lookup data "_id").isSome

/-- Lines 197-213: the `get_attachments` task, as a function of the
download results it awaits, returning the items it pushes onto `stream`
and the exception it raised, if any.  There is no `try`/`except` around
`await download`: an exception ends the task before "END_DOWNLOADS" is
pushed. -/
def getAttachments (index : String) : List DlTask → List QueueItem × Option String
  | [] => ([QueueItem.endDownloads], none)
  | Except.error e :: _ => ([], some e)
  | Except.ok none :: rest => getAttachments index rest
  | Except.ok (some data) :: rest =>
    match PyDict.lookup data "_id" with
    | none => ([], some "KeyError: _id")
    | some did =>
      let r := getAttachments index rest
      (QueueItem.intent ⟨OpType.update, index, did, some (PyDict.remove data "_id")⟩ :: r.1, r.2)

/-- The state of an `ElasticServer` instance that one sync pass reads
and writes: `chunk_size` (500 in `__init__`), the `_downloads` list, and
`indexed_pages_count`. -/
structure ElasticServer where
  chunkSize : Nat
  downloads : List DlTask
  indexedPagesCount : Nat
deriving Repr

/-- `ElasticServer.__init__`: `chunk_size = 500`, `_downloads = []`,
`indexed_pages_count = 0`. -/
def mkElasticServer : ElasticServer := ⟨500, [], 0⟩

/-- What one call of `async_bulk` gives back to its surroundings: the
full queue content of the pass, the first exception raised by the three
tasks (what `asyncio.gather` re-raises), how the bulk writer ended, and
the dict the call returns. -/
structure PassOutcome where
  puts : List QueueItem
  err : Option String
  bulkOutcome : BulkOutcome
  result : List (String × Nat)
deriving Repr

/-- The exception that ended a bulk-writer run, if any. -/
def bulkErrOf : BulkOutcome → Option String
  | BulkOutcome.crashed msg => some msg
  | _ => none

/-- Lines 130-226: one `async_bulk` pass over a server instance, in the
canonical schedule (classification first, then the enrichment drain over
the whole `_downloads` list, then the writer over the concatenated
queue).  `_downloads` is appended to and never cleared; `res` is
re-bound to `{}` on line 225, so the returned dict is always empty. -/
def asyncBulk (srv : ElasticServer) (index : String) (snap : PyDict)
    (feed : List FeedEvent) (now : String) : ElasticServer × PassOutcome :=
  let gd := getDocs index (snapshotIds snap) (snapshotTs snap) now feed
  let downloads := srv.downloads ++ gd.sched
  let ga := getAttachments index downloads
  let trace := gd.puts ++ ga.1
  let b := bulkRun srv.chunkSize trace
  ({ srv with
      downloads := downloads,
      indexedPagesCount := srv.indexedPagesCount + (b.1.ops.map fun o => o.length / 2).sum },
   { puts := trace,
     err := gd.err.orElse fun _ => ga.2.orElse fun _ => bulkErrOf b.2,
     bulkOutcome := b.2,
     result := [] })

/-- The `FakeSource._dl` download callable of the test sources, bound to
one doc id: `doit=False` returns `None`; the scheduled task returns
`{"_id": id, "_timestamp": ts, "text": "xx"}`. -/
def sampleDl (id : String) : LazyDl :=
  ⟨Except.ok none, fun ts => Except.ok (some [("_id", id), ("_timestamp", ts), ("text", "xx")])⟩

example :
    (asyncBulk mkElasticServer "idx" [] [FeedEvent.item [("_id", "1")] none] "t1").2.result
      = [] := by decide

example :
    (asyncBulk mkElasticServer "idx" [] [FeedEvent.item [("_id", "1")] none] "t1").2.bulkOutcome
      = BulkOutcome.done := by decide

/-- A JSON-like mapping value as handled by `_DeepChainMap`: either a
non-`Mapping` scalar (opaque, carried as a string) or a nested dict. -/
inductive JVal where
  | str (s : String)
  | obj (fields : List (String × JVal))
deriving Repr

/-- A mapping dict: field name to value, insertion order, unique keys
(lookup is first match). -/
abbrev Jobj := List (String × JVal)

/-- Dict lookup on a `Jobj`. -/
def lookupJ : Jobj → String → Option JVal
  | [], _ => none
  | (k, v) :: rest, key => if k = key then some v else lookupJ rest key

theorem lookupJ_sizeOf {m : Jobj} {k : String} {v : JVal}
    (h : lookupJ m k = some v) : sizeOf v < sizeOf m := by
  induction m with
  | nil => simp [lookupJ] at h
  | cons p rest ih =>
    obtain ⟨k1, v1⟩ := p
    by_cases hk : k1 = k
    · simp [lookupJ, hk] at h
      subst h
      simp
      omega
    · simp [lookupJ, hk] at h
      have := ih h
      simp
      omega

theorem sizeOf_lookupJ_le (m : Jobj) (k : String) :
    sizeOf (lookupJ m k) ≤ sizeOf m := by
  match h : lookupJ m k with
  | none =>
    cases m
    · simp
    · simp
      omega
  | some v =>
    have := lookupJ_sizeOf h
    simp
    omega

mutual

/-- `_DeepChainMap.__getitem__` followed by `to_dict`'s recursive
conversion, for a key present in a two-map chain with first-map value
`v1` and second-map value `v2`.  The chain of collected `Mapping` values
stops at the first non-`Mapping`; a single-map chain converts back to
the (deep copy of the) map itself. -/
def dcmValue : JVal → JVal → JVal
  | JVal.str s, _ => JVal.str s
  | JVal.obj m1, JVal.str _ => JVal.obj m1
  | JVal.obj m1, JVal.obj m2 =>
    JVal.obj (dcmEntries m1 m2 ++ m2.filter fun p => (lookupJ m1 p.1).isNone)
termination_by v1 v2 => sizeOf v1 + sizeOf v2

/-- The value a two-map chain resolves for a key whose first-map value
is `v` and whose second-map lookup is `o`. -/
def dcmEntryVal : JVal → Option JVal → JVal
  | v, none => v
  | v, some v2 => dcmValue v v2
termination_by v o => sizeOf v + sizeOf o

/-- The entries of `_DeepChainMap(m1, m2).to_dict()` coming from keys of
`m1` (whose values win, merged in depth with `m2`'s). -/
def dcmEntries : Jobj → Jobj → Jobj
  | [], _ => []
  | (k, v) :: rest, m2 =>
    (k, dcmEntryVal v (lookupJ m2 k)) :: dcmEntries rest m2
termination_by m1 m2 => sizeOf m1 + sizeOf m2
decreasing_by
  all_goals
    first
      | (have hle := sizeOf_lookupJ_le m2 k
         simp
         omega)
      | (simp
         omega)
      | simp

end

/-- `_DeepChainMap(m1, m2).to_dict()`: `m1`'s keys with depth-merged
values, then the keys only `m2` has.  (Python's `ChainMap` iterates keys
in a different order; only the key-value association is modelled.) -/
def dcmToDict (m1 m2 : Jobj) : Jobj :=
  dcmEntries m1 m2 ++ m2.filter fun p => (lookupJ m1 p.1).isNone

/-- Lines 115-124 of `ensure_content_index_mappings`: the mappings sent
to `put_mapping`.  A non-empty (truthy) existing mapping is additively
merged with the desired one; an empty one is replaced outright. -/
def desiredMappings (existing mappings : Jobj) : Jobj :=
  if existing.isEmpty then mappings else dcmToDict existing mappings

/-- Leaf access along a key path, for stating what "a field keeps its
value" means on nested mappings. -/
def getPath : JVal → List String → Option JVal
  | v, [] => some v
  | JVal.str _, _ :: _ => none
  | JVal.obj m, k :: p =>
    match lookupJ m k with
    | none => none
    | some v => getPath v p

example :
    dcmToDict [("a", JVal.str "1"), ("n", JVal.obj [("x", JVal.str "2")])]
        [("a", JVal.str "9"), ("b", JVal.str "3"),
         ("n", JVal.obj [("x", JVal.str "8"), ("y", JVal.str "4")])]
      = [("a", JVal.str "1"),
         ("n", JVal.obj [("x", JVal.str "2"), ("y", JVal.str "4")]),
         ("b", JVal.str "3")] := by
  simp [dcmToDict, dcmEntries, dcmEntryVal, dcmValue, lookupJ]

theorem intentLines_ok {w : WriteIntent} (h : w.doc.isSome = true) :
    ∃ ls, intentLines w = (ls, none) ∧ ls.length = 2 := by
  cases hd : w.doc with
  | none => rw [hd] at h; simp at h
  | some d =>
    by_cases hop : w.op = OpType.update
    · exact ⟨[BulkLine.action w.op w.index w.id, BulkLine.updateBody d],
        by simp [intentLines, hd, hop], rfl⟩
    · exact ⟨[BulkLine.action w.op w.index w.id, BulkLine.docBody d],
        by simp [intentLines, hd, hop], rfl⟩

theorem bulkLoop_done_iff (chunk : Nat) (t : List QueueItem) :
    ∀ acc : BulkAcc, intentsOk t = true →
      (acc.docsEnded && acc.downloadsEnded) = false →
      ((bulkLoop chunk t acc).2 = BulkOutcome.done ↔
        ((acc.docsEnded = true ∨ QueueItem.endDocs ∈ t) ∧
         (acc.downloadsEnded = true ∨ QueueItem.endDownloads ∈ t))) := by
  induction t with
  | nil =>
    intro acc _ hflags
    simp [bulkLoop]
    intro h1
    rw [h1] at hflags
    simpa using hflags
  | cons q rest ih =>
    intro acc hok hflags
    have hokr : intentsOk rest = true := by
      simp only [intentsOk, List.all_cons, Bool.and_eq_true] at hok
      exact hok.2
    cases q with
    | endDocs =>
      by_cases hl : acc.downloadsEnded = true
      · simp [bulkLoop, hl]
      · have hl2 : acc.downloadsEnded = false := by
          cases h : acc.downloadsEnded
          · rfl
          · exact absurd h hl
        simp only [bulkLoop, hl2, Bool.and_false, Bool.false_eq_true, if_false]
        rw [ih ⟨acc.batch, acc.ops, true, false⟩ hokr (by simp)]
        simp [hl2]
    | endDownloads =>
      by_cases hd : acc.docsEnded = true
      · simp [bulkLoop, hd]
      · have hd2 : acc.docsEnded = false := by
          cases h : acc.docsEnded
          · rfl
          · exact absurd h hd
        simp only [bulkLoop, hd2, Bool.false_and, Bool.false_eq_true, if_false]
        rw [ih ⟨acc.batch, acc.ops, false, true⟩ hokr (by simp)]
        simp [hd2]
    | intent w =>
      have hw : w.doc.isSome = true := by
        simp only [intentsOk, List.all_cons, Bool.and_eq_true] at hok
        exact hok.1
      obtain ⟨ls, hls, _⟩ := intentLines_ok hw
      simp only [bulkLoop, hls, hflags, Bool.false_eq_true, if_false]
      by_cases hb : chunk * 2 ≤ (acc.batch ++ ls).length
      · rw [if_pos hb,
          ih ⟨[], acc.ops ++ [acc.batch ++ ls], acc.docsEnded, acc.downloadsEnded⟩ hokr hflags]
        simp
      · rw [if_neg hb,
          ih ⟨acc.batch ++ ls, acc.ops, acc.docsEnded, acc.downloadsEnded⟩ hokr hflags]
        simp

theorem bulkLoop_batch_count (chunk : Nat) (hc : 0 < chunk) :
    ∀ (ws : List WriteIntent) (acc : BulkAcc) (k : Nat),
      (∀ w ∈ ws, w.doc.isSome = true) →
      acc.batch.length = 2 * k → k < chunk →
      acc.docsEnded = false → acc.downloadsEnded = false →
      (bulkLoop chunk (ws.map QueueItem.intent ++ [QueueItem.endDocs, QueueItem.endDownloads]) acc).2
          = BulkOutcome.done ∧
      ((bulkLoop chunk (ws.map QueueItem.intent ++ [QueueItem.endDocs, QueueItem.endDownloads]) acc).1.ops).length
          = acc.ops.length + (k + ws.length + (chunk - 1)) / chunk := by
  intro ws
  induction ws with
  | nil =>
    intro acc k hok hb hk hd hl
    simp only [List.map_nil, List.nil_append, List.length_nil, Nat.add_zero]
    simp only [bulkLoop, hd, hl, Bool.and_false, Bool.false_eq_true, if_false,
      Bool.true_and, if_true, flushFinal]
    by_cases hk0 : k = 0
    · subst hk0
      have hbe : acc.batch = [] := List.length_eq_zero.mp (by omega)
      have hdiv : (chunk - 1) / chunk = 0 := Nat.div_eq_of_lt (by omega)
      simp [hbe, hdiv]
    · have hbe : acc.batch.isEmpty = false := by
        cases hN : acc.batch
        · rw [hN] at hb; simp at hb; omega
        · simp [hN]
      have hdiv : (k + (chunk - 1)) / chunk = 1 := by
        rw [show k + (chunk - 1) = (k - 1) + chunk by omega,
          Nat.add_div_right _ hc, Nat.div_eq_of_lt (by omega)]
      simp [hbe, hdiv]
  | cons w ws ih =>
    intro acc k hok hb hk hd hl
    have hw : w.doc.isSome = true := hok w (List.mem_cons_self w ws)
    have hokr : ∀ x ∈ ws, x.doc.isSome = true := fun x hx => hok x (List.mem_cons_of_mem w hx)
    obtain ⟨ls, hls, hlen⟩ := intentLines_ok hw
    simp only [List.map_cons, List.cons_append, List.length_cons]
    simp only [bulkLoop, hls, hd, hl, Bool.and_self, Bool.false_eq_true, if_false]
    have hblen : (acc.batch ++ ls).length = 2 * k + 2 := by
      rw [List.length_append, hb, hlen]
    by_cases hfull : k + 1 = chunk
    · rw [if_pos (by omega)]
      have hrec := ih ⟨[], acc.ops ++ [acc.batch ++ ls], false, false⟩ 0 hokr
        (by show ([] : List BulkLine).length = 2 * 0; simp) hc rfl rfl
      refine ⟨hrec.1, ?_⟩
      rw [hrec.2]
      have hdiv : (k + (ws.length + 1) + (chunk - 1)) / chunk
          = (0 + ws.length + (chunk - 1)) / chunk + 1 := by
        rw [show k + (ws.length + 1) + (chunk - 1) = (0 + ws.length + (chunk - 1)) + chunk by omega,
          Nat.add_div_right _ hc]
      rw [hdiv]
      simp
      omega
    · rw [if_neg (by omega)]
      have hrec := ih ⟨acc.batch ++ ls, acc.ops, false, false⟩ (k + 1) hokr
        (by show (acc.batch ++ ls).length = 2 * (k + 1); rw [hblen]; omega)
        (by omega) rfl rfl
      refine ⟨hrec.1, ?_⟩
      rw [hrec.2]
      have hnum : k + 1 + ws.length + (chunk - 1) = k + (ws.length + 1) + (chunk - 1) := by
        omega
      rw [hnum]

/-- C3: for any chunk size and any finite queue content whose intents
all carry a "doc" body, the bulk writer reaches its final flush and
returns (outcome `done`) exactly when both end markers END_DOCS and
END_DOWNLOADS appear in the consumed queue; with only one marker (or
none) it stays blocked on the queue. -/
theorem bulk_writer_done_iff_both_markers (chunk : Nat) (t : List QueueItem)
    (hok : intentsOk t = true) :
    (bulkRun chunk t).2 = BulkOutcome.done ↔
      (QueueItem.endDocs ∈ t ∧ QueueItem.endDownloads ∈ t) := by
  have h := bulkLoop_done_iff chunk t ⟨[], [], false, false⟩ hok (by simp)
  simpa [bulkRun] using h

/-- Witness for C3 at a concrete queue content. -/
theorem bulk_writer_done_iff_both_markers_witness :
    (bulkRun 500 [QueueItem.endDocs, QueueItem.endDownloads]).2 = BulkOutcome.done ↔
      (QueueItem.endDocs ∈ [QueueItem.endDocs, QueueItem.endDownloads] ∧
       QueueItem.endDownloads ∈ [QueueItem.endDocs, QueueItem.endDownloads]) :=
  bulk_writer_done_iff_both_markers 500 [QueueItem.endDocs, QueueItem.endDownloads] (by decide)

/-- C4: a bulk-writer run that consumes M write-intents (each carrying
its "doc" body) followed by the two end markers completes, and
dispatches exactly ⌈M / 500⌉ bulk calls with the configured chunk size
500: one each time the batch reaches 500 intents, plus one final
partial batch exactly when the remainder is non-zero. -/
theorem bulk_writer_batch_count (ws : List WriteIntent)
    (hok : ∀ w ∈ ws, w.doc.isSome = true) :
    (bulkRun 500 (ws.map QueueItem.intent ++ [QueueItem.endDocs, QueueItem.endDownloads])).2
        = BulkOutcome.done ∧
    ((bulkRun 500 (ws.map QueueItem.intent ++ [QueueItem.endDocs, QueueItem.endDownloads])).1.ops).length
        = (ws.length + 499) / 500 := by
  have h := bulkLoop_batch_count 500 (by norm_num) ws ⟨[], [], false, false⟩ 0 hok
    (by simp) (by norm_num) rfl rfl
  refine ⟨h.1, ?_⟩
  rw [bulkRun, h.2]
  simp

/-- Witness for C4 at a concrete run with one write-intent. -/
theorem bulk_writer_batch_count_witness :
    (bulkRun 500 ([(⟨OpType.update, "idx", "1", some [("id", "1")]⟩ : WriteIntent)].map QueueItem.intent
        ++ [QueueItem.endDocs, QueueItem.endDownloads])).2 = BulkOutcome.done ∧
    ((bulkRun 500 ([(⟨OpType.update, "idx", "1", some [("id", "1")]⟩ : WriteIntent)].map QueueItem.intent
        ++ [QueueItem.endDocs, QueueItem.endDownloads])).1.ops).length
      = ([(⟨OpType.update, "idx", "1", some [("id", "1")]⟩ : WriteIntent)].length + 499) / 500 :=
  bulk_writer_batch_count [⟨OpType.update, "idx", "1", some [("id", "1")]⟩] (by decide)

/-- C8: refuted by the code.  A delete write-intent is pushed without a
"doc" key (line 192), yet `_bulk` unconditionally appends a body line
whose lookup `doc["doc"]` then raises `KeyError`, so the writer crashes
on the first delete it pops instead of appending a metadata-only action;
the update representation (metadata plus `doc_as_upsert` body) is the
part of the claim the code does satisfy. -/
theorem bulk_delete_body_lookup_crashes :
    (bulkRun 500 ((getDocs "idx" (snapshotIds [("id2", "t0")]) (snapshotTs [("id2", "t0")])
          "t1" []).puts ++ (getAttachments "idx" []).1)).2
        = BulkOutcome.crashed "KeyError: doc" ∧
    intentLines ⟨OpType.delete, "idx", "id2", none⟩
        = ([BulkLine.action OpType.delete "idx" "id2"], some "KeyError: doc") ∧
    intentLines ⟨OpType.update, "idx", "id1", some [("id", "id1")]⟩
        = ([BulkLine.action OpType.update "idx" "id1", BulkLine.updateBody [("id", "id1")]],
           none) := by
  refine ⟨?_, by decide, by decide⟩
  decide

theorem PyDict.lookup_append (a b : PyDict) (key : String) :
    PyDict.lookup (a ++ b) key = (PyDict.lookup a key).orElse fun _ => PyDict.lookup b key := by
  induction a with
  | nil => simp [PyDict.lookup]
  | cons p rest ih =>
    obtain ⟨k1, v1⟩ := p
    by_cases h : k1 = key
    · simp [PyDict.lookup, h]
    · simp [PyDict.lookup, h, ih]

theorem PyDict.lookup_remove_ne (d : PyDict) (k key : String) (h : k ≠ key) :
    PyDict.lookup (PyDict.remove d k) key = PyDict.lookup d key := by
  have hks : key ≠ k := Ne.symm h
  induction d with
  | nil => rfl
  | cons p rest ih =>
    obtain ⟨k1, v1⟩ := p
    by_cases h1 : k1 = k
    · subst h1
      simpa [PyDict.remove, List.filter_cons, PyDict.lookup, h] using ih
    · by_cases h2 : k1 = key
      · subst h2
        simp [PyDict.remove, List.filter_cons, hks, PyDict.lookup]
      · simpa [PyDict.remove, List.filter_cons, h1, PyDict.lookup, h2] using ih

theorem PyDict.lookup_map_replace (d : PyDict) (k v key : String) (h : k ≠ key) :
    PyDict.lookup (d.map fun p => if p.1 = k then (k, v) else p) key
      = PyDict.lookup d key := by
  induction d with
  | nil => rfl
  | cons p rest ih =>
    obtain ⟨k1, v1⟩ := p
    by_cases h1 : k1 = k
    · subst h1
      simp only [List.map_cons]
      simp [PyDict.lookup, h, ih]
    · by_cases h2 : k1 = key
      · subst h2
        simp only [List.map_cons]
        dsimp only
        rw [if_neg h1]
        simp [PyDict.lookup]
      · simp only [List.map_cons]
        dsimp only
        rw [if_neg h1]
        simp [PyDict.lookup, h2, ih]

theorem PyDict.lookup_set_ne (d : PyDict) (k v key : String) (h : k ≠ key) :
    PyDict.lookup (PyDict.set d k v) key = PyDict.lookup d key := by
  unfold PyDict.set
  split
  · exact PyDict.lookup_map_replace d k v key h
  · rw [PyDict.lookup_append]
    have hone : PyDict.lookup [(k, v)] key = none := by
      simp [PyDict.lookup, h]
    rw [hone]
    cases PyDict.lookup d key <;> rfl

/-- C2: a feed document whose "timestamp" token equals the snapshot's
token for the same id is classified unchanged: its `lazy_download` is
invoked with `doit=False` (recorded in `skips`), no write-intent is
pushed for it, and no enrichment download is scheduled; only `seen_ids`
is extended. -/
theorem unchanged_doc_skips (index now ts docId : String)
    (existingTs : String → Option String) (st : GDocsOut) (doc : PyDict)
    (f : LazyDl) (r : Option PyDict)
    (h1 : PyDict.lookup doc "_id" = some docId)
    (h2 : PyDict.lookup doc "timestamp" = some ts)
    (h3 : existingTs docId = some ts)
    (h4 : f.onSkip = Except.ok r) :
    processFeedItem index existingTs now st doc (some f)
      = { st with seen := st.seen ++ [docId], skips := st.skips ++ [docId] } := by
  have hts : PyDict.lookup (PyDict.set (PyDict.remove doc "_id") "id" docId) "timestamp"
      = some ts := by
    rw [PyDict.lookup_set_ne _ _ _ _ (by decide), PyDict.lookup_remove_ne _ _ _ (by decide), h2]
  simp only [processFeedItem, h1, hts, h3, Option.getD_some, if_pos rfl, h4, if_true]

/-- Witness for C2 at a concrete unchanged document. -/
theorem unchanged_doc_skips_witness :
    processFeedItem "idx" (snapshotTs [("id1", "t0")]) "t9" ⟨[], [], [], [], none⟩
        [("_id", "id1"), ("timestamp", "t0")] (some (sampleDl "id1"))
      = { (⟨[], [], [], [], none⟩ : GDocsOut) with
            seen := [] ++ ["id1"], skips := [] ++ ["id1"] } :=
  unchanged_doc_skips "idx" "t9" "t0" "id1" (snapshotTs [("id1", "t0")])
    ⟨[], [], [], [], none⟩ [("_id", "id1"), ("timestamp", "t0")] (sampleDl "id1") none
    (by decide) (by decide) (by decide) rfl

theorem emitDoc_err (index : String) (st : GDocsOut) (docId : String) (doc : PyDict)
    (ts : String) (dl : Option LazyDl) :
    (emitDoc index st docId doc ts dl).err = st.err := by
  cases dl <;> rfl

theorem emitDoc_seen (index : String) (st : GDocsOut) (docId : String) (doc : PyDict)
    (ts : String) (dl : Option LazyDl) :
    (emitDoc index st docId doc ts dl).seen = st.seen := by
  cases dl <;> rfl

theorem emitDoc_puts (index : String) (st : GDocsOut) (docId : String) (doc : PyDict)
    (ts : String) (dl : Option LazyDl) :
    (emitDoc index st docId doc ts dl).puts
      = st.puts ++ [QueueItem.intent ⟨OpType.update, index, docId, some doc⟩] := by
  cases dl <;> rfl

theorem processFeedItem_err_none (index : String) (existingTs : String → Option String)
    (now : String) (st : GDocsOut) (doc : PyDict) (dl : Option LazyDl)
    (h : (processFeedItem index existingTs now st doc dl).err = none) :
    st.err = none := by
  cases h1 : PyDict.lookup doc "_id" with
  | none =>
    simp only [processFeedItem, h1] at h
    simp at h
  | some docId =>
    simp only [processFeedItem, h1] at h
    cases h2 : PyDict.lookup (PyDict.set (PyDict.remove doc "_id") "id" docId) "timestamp" with
    | some ts =>
      simp only [h2] at h
      by_cases h3 : ((existingTs docId).getD "") = ts
      · rw [if_pos h3] at h
        cases dl with
        | none => simp at h
        | some f =>
          cases h4 : f.onSkip with
          | error e => simp only [h4] at h; simp at h
          | ok r => simp only [h4] at h; exact h
      · rw [if_neg h3] at h
        rw [emitDoc_err] at h
        exact h
    | none =>
      simp only [h2] at h
      rw [emitDoc_err] at h
      exact h

theorem processFeedItem_some_id (index : String) (existingTs : String → Option String)
    (now : String) (st : GDocsOut) (doc : PyDict) (dl : Option LazyDl)
    (h : (processFeedItem index existingTs now st doc dl).err = none) :
    ∃ docId, PyDict.lookup doc "_id" = some docId := by
  cases h1 : PyDict.lookup doc "_id" with
  | none =>
    simp only [processFeedItem, h1] at h
    simp at h
  | some docId => exact ⟨docId, rfl⟩

theorem processFeedItem_seen (index : String) (existingTs : String → Option String)
    (now : String) (st : GDocsOut) (doc : PyDict) (dl : Option LazyDl)
    (docId : String) (h1 : PyDict.lookup doc "_id" = some docId) :
    (processFeedItem index existingTs now st doc dl).seen = st.seen ++ [docId] := by
  cases h2 : PyDict.lookup (PyDict.set (PyDict.remove doc "_id") "id" docId) "timestamp" with
  | some ts =>
    simp only [processFeedItem, h1, h2]
    by_cases h3 : ((existingTs docId).getD "") = ts
    · rw [if_pos h3]
      cases dl with
      | none => rfl
      | some f =>
        cases h4 : f.onSkip with
        | error e => simp only [h4]
        | ok r => simp only [h4]
    · rw [if_neg h3]
      rw [emitDoc_seen]
  | none =>
    simp only [processFeedItem, h1, h2]
    rw [emitDoc_seen]

theorem processFeedItem_puts (index : String) (existingTs : String → Option String)
    (now : String) (st : GDocsOut) (doc : PyDict) (dl : Option LazyDl) :
    ∀ q ∈ (processFeedItem index existingTs now st doc dl).puts,
      q ∈ st.puts ∨ isUpdate q = true := by
  intro q hq
  cases h1 : PyDict.lookup doc "_id" with
  | none =>
    simp only [processFeedItem, h1] at hq
    exact Or.inl hq
  | some docId =>
    simp only [processFeedItem, h1] at hq
    cases h2 : PyDict.lookup (PyDict.set (PyDict.remove doc "_id") "id" docId) "timestamp" with
    | some ts =>
      simp only [h2] at hq
      by_cases h3 : ((existingTs docId).getD "") = ts
      · rw [if_pos h3] at hq
        cases dl with
        | none => exact Or.inl hq
        | some f =>
          cases h4 : f.onSkip with
          | error e => simp only [h4] at hq; exact Or.inl hq
          | ok r => simp only [h4] at hq; exact Or.inl hq
      · rw [if_neg h3] at hq
        rw [emitDoc_puts] at hq
        rcases List.mem_append.mp hq with hq1 | hq2
        · exact Or.inl hq1
        · right
          rw [List.mem_singleton.mp hq2]
          simp [isUpdate]
    | none =>
      simp only [h2] at hq
      rw [emitDoc_puts] at hq
      rcases List.mem_append.mp hq with hq1 | hq2
      · exact Or.inl hq1
      · right
        rw [List.mem_singleton.mp hq2]
        simp [isUpdate]

theorem feedLoop_spec (index : String) (existingTs : String → Option String) (now : String) :
    ∀ (feed : List FeedEvent) (st : GDocsOut),
      (feedLoop index existingTs now feed st).err = none →
      (feedLoop index existingTs now feed st).seen = st.seen ++ feedIds feed ∧
      (∀ q ∈ (feedLoop index existingTs now feed st).puts,
        q ∈ st.puts ∨ isUpdate q = true) := by
  intro feed
  induction feed with
  | nil =>
    intro st h
    refine ⟨by simp [feedLoop, feedIds], ?_⟩
    intro q hq
    exact Or.inl hq
  | cons e rest ih =>
    intro st h
    cases e with
    | fail msg => simp [feedLoop] at h
    | item doc dl =>
      by_cases he : (processFeedItem index existingTs now st doc dl).err.isSome
      · simp only [feedLoop, if_pos he] at h
        rw [h] at he
        simp at he
      · have hnone : (processFeedItem index existingTs now st doc dl).err = none :=
          Option.not_isSome_iff_eq_none.mp he
        simp only [feedLoop, if_neg he] at h ⊢
        obtain ⟨docId, hid⟩ := processFeedItem_some_id index existingTs now st doc dl hnone
        have hseen := processFeedItem_seen index existingTs now st doc dl docId hid
        have hputs := processFeedItem_puts index existingTs now st doc dl
        obtain ⟨hseen2, hputs2⟩ := ih _ h
        constructor
        · rw [hseen2, hseen]
          simp [feedIds, List.filterMap_cons, hid]
        · intro q hq
          rcases hputs2 q hq with hq1 | hq2
          · rcases hputs q hq1 with hq3 | hq4
            · exact Or.inl hq3
            · exact Or.inr hq4
          · exact Or.inr hq2

theorem filterMap_deleteIdOf_map_delete (index : String) (ids : List String) :
    (ids.map fun i => QueueItem.intent ⟨OpType.delete, index, i, none⟩).filterMap deleteIdOf
      = ids := by
  induction ids with
  | nil => rfl
  | cons i rest ih => simp [deleteIdOf, ih]

theorem deleteIdOf_of_isUpdate {q : QueueItem} (h : isUpdate q = true) :
    deleteIdOf q = none := by
  cases q with
  | intent w =>
    simp [isUpdate] at h
    simp [deleteIdOf, h]
  | endDocs => rfl
  | endDownloads => rfl

/-- C1: when the feed is exhausted without an exception, the multiset of
ids receiving a delete write-intent from `get_docs` is exactly the
snapshot id set minus the feed id set: each id of the snapshot that the
generator did not yield is deleted exactly once, and no id the generator
yielded is ever deleted. -/
theorem delete_set_is_snapshot_minus_feed (index now : String) (snap : PyDict)
    (feed : List FeedEvent)
    (h : (getDocs index (snapshotIds snap) (snapshotTs snap) now feed).err = none)
    (id : String) :
    ((getDocs index (snapshotIds snap) (snapshotTs snap) now feed).puts.filterMap
        deleteIdOf).count id
      = if id ∈ snap.map Prod.fst ∧ id ∉ feedIds feed then 1 else 0 := by
  have herr : (feedLoop index (snapshotTs snap) now feed ⟨[], [], [], [], none⟩).err = none := by
    simp only [getDocs] at h
    cases he : (feedLoop index (snapshotTs snap) now feed ⟨[], [], [], [], none⟩).err with
    | none => rfl
    | some msg =>
      simp only [he] at h
      exact absurd h (by simp)
  obtain ⟨hseen, hputs⟩ := feedLoop_spec index (snapshotTs snap) now feed
    ⟨[], [], [], [], none⟩ herr
  simp only [getDocs, herr]
  simp only [List.filterMap_append]
  have hl : (feedLoop index (snapshotTs snap) now feed
      ⟨[], [], [], [], none⟩).puts.filterMap deleteIdOf = [] := by
    rw [List.filterMap_eq_nil_iff]
    intro q hq
    rcases hputs q hq with h0 | h1
    · simp at h0
    · exact deleteIdOf_of_isUpdate h1
  rw [hl, filterMap_deleteIdOf_map_delete]
  have hseen2 : (feedLoop index (snapshotTs snap) now feed
      ⟨[], [], [], [], none⟩).seen = feedIds feed := by
    simpa using hseen
  rw [hseen2]
  simp only [List.nil_append]
  have hend : List.filterMap deleteIdOf [QueueItem.endDocs] = [] := rfl
  rw [hend, List.append_nil]
  by_cases hmem : id ∈ feedIds feed
  · have hnot : id ∉ (snapshotIds snap).filter fun i => decide (i ∉ feedIds feed) := by
      intro hc
      have := (List.mem_filter.mp hc).2
      simp at this
      exact this hmem
    rw [List.count_eq_zero.mpr hnot]
    simp [hmem]
  · rw [List.count_filter (by simp [hmem])]
    unfold snapshotIds
    rw [List.count_dedup]
    have hiff : (id ∈ List.map Prod.fst snap ∧ id ∉ feedIds feed)
        ↔ id ∈ List.map Prod.fst snap := ⟨fun hx => hx.1, fun hx => ⟨hx, hmem⟩⟩
    rw [if_congr hiff rfl rfl]

/-- Witness for C1 at a concrete snapshot and empty feed. -/
theorem delete_set_is_snapshot_minus_feed_witness :
    ((getDocs "idx" (snapshotIds [("a", "t")]) (snapshotTs [("a", "t")]) "now" []).puts.filterMap
        deleteIdOf).count "a"
      = if "a" ∈ ([("a", "t")] : PyDict).map Prod.fst ∧ "a" ∉ feedIds [] then 1 else 0 :=
  delete_set_is_snapshot_minus_feed "idx" "now" [("a", "t")] [] (by decide) "a"

/-- C5: refuted by the code.  `async_bulk` rebinds `res` to `{}` just
before returning (line 225), so a pass that indexes one new document
(here: empty index, feed yields `{"_id": "1"}`) completes with one
update write-intent dispatched, yet the caller receives the empty dict
instead of the operation counts the adjacent comment promises. -/
theorem async_bulk_returns_empty_result :
    (asyncBulk mkElasticServer "idx" [] [FeedEvent.item [("_id", "1")] none] "t1").2.result
        = [] ∧
    ((asyncBulk mkElasticServer "idx" [] [FeedEvent.item [("_id", "1")] none] "t1").2.puts.countP
        isUpdate) = 1 ∧
    (asyncBulk mkElasticServer "idx" [] [FeedEvent.item [("_id", "1")] none] "t1").2.bulkOutcome
        = BulkOutcome.done ∧
    (asyncBulk mkElasticServer "idx" [] [FeedEvent.item [("_id", "1")] none] "t1").1.indexedPagesCount
        = 1 := by
  refine ⟨rfl, by decide, by decide, by decide⟩

/-- C6: refuted by the code.  When the generator raises before yielding
(the `FakeSource` failure mode, "I fail while syncing"), `get_docs`
propagates the exception without pushing "END_DOCS": the pass fails with
the feed error while the bulk writer stays blocked on the queue forever
instead of draining and surfacing the error. -/
theorem feed_failure_emits_no_end_marker :
    QueueItem.endDocs ∉
        (asyncBulk mkElasticServer "idx" [] [FeedEvent.fail "I fail while syncing"] "t1").2.puts ∧
    (asyncBulk mkElasticServer "idx" [] [FeedEvent.fail "I fail while syncing"] "t1").2.err
        = some "I fail while syncing" ∧
    (asyncBulk mkElasticServer "idx" [] [FeedEvent.fail "I fail while syncing"] "t1").2.bulkOutcome
        = BulkOutcome.blocked := by
  refine ⟨by decide, rfl, rfl⟩

/-- C7 counterexample: a failing download is not caught.  With a first
download that raises "boom" and a second that succeeded with data for
id "3", the drain returns immediately with the exception: the later
download's upsert is never pushed and "END_DOWNLOADS" is never emitted,
contradicting the claimed catch-and-continue behaviour. -/
theorem enrichment_failure_not_caught :
    getAttachments "idx" [Except.error "boom", Except.ok (some [("_id", "3"), ("text", "x")])]
        = ([], some "boom") ∧
    QueueItem.endDownloads ∉
        (getAttachments "idx"
          [Except.error "boom", Except.ok (some [("_id", "3"), ("text", "x")])]).1 ∧
    QueueItem.intent ⟨OpType.update, "idx", "3", some [("text", "x")]⟩ ∉
        (getAttachments "idx"
          [Except.error "boom", Except.ok (some [("_id", "3"), ("text", "x")])]).1 := by
  refine ⟨rfl, by decide, by decide⟩

/-- C7 as amended: an exception from an awaited download propagates out
of `get_attachments`: the drain stops at the first failing download,
pushes the upserts of the successful downloads before it and nothing
further, and does not emit DOWNLOADS_DONE — the failure is fatal to the
pass rather than per-document. -/
theorem enrichment_failure_aborts_drain (index : String) (pre rest : List DlTask) (e : String)
    (hok : ∀ d ∈ pre, dlStepOk d = true) :
    (getAttachments index (pre ++ Except.error e :: rest)).2 = some e ∧
    QueueItem.endDownloads ∉ (getAttachments index (pre ++ Except.error e :: rest)).1 := by
  induction pre with
  | nil => exact ⟨rfl, by simp [getAttachments]⟩
  | cons d ds ih =>
    have hd : dlStepOk d = true := hok d (List.mem_cons_self d ds)
    have hok2 : ∀ x ∈ ds, dlStepOk x = true := fun x hx => hok x (List.mem_cons_of_mem d hx)
    obtain ⟨ih1, ih2⟩ := ih hok2
    cases d with
    | error e2 => simp [dlStepOk] at hd
    | ok o =>
      cases o with
      | none => simpa [getAttachments] using ⟨ih1, ih2⟩
      | some data =>
        simp only [dlStepOk, Option.isSome_iff_exists] at hd
        obtain ⟨did, hdid⟩ := hd
        simp only [List.cons_append, getAttachments, hdid]
        refine ⟨ih1, ?_⟩
        intro hc
        rcases List.mem_cons.mp hc with hc1 | hc2
        · exact absurd hc1 (by simp)
        · exact ih2 hc2

/-- Witness for the amended C7 at a concrete download list. -/
theorem enrichment_failure_aborts_drain_witness :
    (getAttachments "idx" ([Except.ok none] ++ Except.error "boom" :: [])).2 = some "boom" ∧
    QueueItem.endDownloads ∉
        (getAttachments "idx" ([Except.ok none] ++ Except.error "boom" :: [])).1 :=
  enrichment_failure_aborts_drain "idx" [Except.ok none] [] "boom" (by decide)

theorem lookupJ_append (a b : Jobj) (key : String) :
    lookupJ (a ++ b) key = (lookupJ a key).orElse fun _ => lookupJ b key := by
  induction a with
  | nil => simp [lookupJ]
  | cons p rest ih =>
    obtain ⟨k1, v1⟩ := p
    by_cases h : k1 = key
    · simp [lookupJ, h]
    · simp [lookupJ, h, ih]

theorem lookupJ_dcmEntries (m1 m2 : Jobj) (key : String) :
    lookupJ (dcmEntries m1 m2) key
      = (lookupJ m1 key).map fun v => dcmEntryVal v (lookupJ m2 key) := by
  induction m1 with
  | nil => simp [dcmEntries, lookupJ]
  | cons p rest ih =>
    obtain ⟨k1, v1⟩ := p
    by_cases h : k1 = key
    · subst h
      simp [dcmEntries, lookupJ]
    · simp [dcmEntries, lookupJ, h, ih]

theorem lookupJ_filter_isNone (m1 m2 : Jobj) (key : String) :
    lookupJ (m2.filter fun p => (lookupJ m1 p.1).isNone) key
      = if (lookupJ m1 key).isNone = true then lookupJ m2 key else none := by
  induction m2 with
  | nil => simp [lookupJ]
  | cons p rest ih =>
    obtain ⟨k2, v2⟩ := p
    by_cases hk : k2 = key
    · subst hk
      by_cases hm : (lookupJ m1 k2).isNone = true
      · simp [List.filter_cons, hm, lookupJ]
      · simp only [List.filter_cons]
        rw [if_neg (by simpa using hm)]
        rw [ih]
        simp [hm]
    · simp only [List.filter_cons]
      by_cases hm : (lookupJ m1 k2).isNone = true
      · simp only [hm, if_pos]
        simp [lookupJ, hk, ih]
      · rw [if_neg (by simpa using hm)]
        rw [ih]
        simp [lookupJ, hk]

theorem lookupJ_dcmToDict (m1 m2 : Jobj) (key : String) :
    lookupJ (dcmToDict m1 m2) key
      = match lookupJ m1 key, lookupJ m2 key with
        | none, o => o
        | some v, none => some v
        | some v, some v2 => some (dcmValue v v2) := by
  unfold dcmToDict
  rw [lookupJ_append, lookupJ_dcmEntries, lookupJ_filter_isNone]
  cases h1 : lookupJ m1 key with
  | none => simp [h1]
  | some v =>
    cases h2 : lookupJ m2 key with
    | none => simp [dcmEntryVal]
    | some v2 => simp [dcmEntryVal]

theorem getPath_dcmValue (p : List String) :
    ∀ (v1 v2 : JVal) (s : String), getPath v1 p = some (JVal.str s) →
      getPath (dcmValue v1 v2) p = some (JVal.str s) := by
  induction p with
  | nil =>
    intro v1 v2 s h
    simp only [getPath] at h
    cases h
    simp [getPath, dcmValue]
  | cons k rest ih =>
    intro v1 v2 s h
    cases v1 with
    | str s1 => simp [getPath] at h
    | obj m1 =>
      simp only [getPath] at h
      cases hw : lookupJ m1 k with
      | none => rw [hw] at h; simp at h
      | some w =>
        rw [hw] at h
        cases v2 with
        | str s2 => simp only [dcmValue, getPath, hw]; exact h
        | obj m2 =>
          simp only [dcmValue, getPath]
          have hlook := lookupJ_dcmToDict m1 m2 k
          rw [show dcmEntries m1 m2 ++ List.filter (fun p => (lookupJ m1 p.1).isNone) m2
              = dcmToDict m1 m2 from rfl]
          rw [hlook, hw]
          cases hw2 : lookupJ m2 k with
          | none => exact h
          | some w2 => exact ih w w2 s h

/-- C9: for an index that already has (truthy) mappings, the desired
mappings computed by `ensure_content_index_mappings` are the additive
`_DeepChainMap` merge: every leaf field of the existing mappings keeps
its existing value along its key path (never overwritten by the new
mappings), a field present only in the new mappings is added, and two
nested mapping dicts under the same key are merged recursively by the
same rule. -/
theorem ensure_mappings_additive_merge (existing mappings : Jobj)
    (hne : existing.isEmpty = false) :
    (∀ (p : List String) (s : String),
        getPath (JVal.obj existing) p = some (JVal.str s) →
        getPath (JVal.obj (desiredMappings existing mappings)) p = some (JVal.str s))
    ∧ (∀ (k : String) (v : JVal), lookupJ existing k = none → lookupJ mappings k = some v →
        lookupJ (desiredMappings existing mappings) k = some v)
    ∧ (∀ (k : String) (m1 m2 : Jobj),
        lookupJ existing k = some (JVal.obj m1) → lookupJ mappings k = some (JVal.obj m2) →
        lookupJ (desiredMappings existing mappings) k
          = some (JVal.obj (dcmToDict m1 m2))) := by
  have hd : desiredMappings existing mappings = dcmToDict existing mappings := by
    unfold desiredMappings
    rw [hne]
    simp
  have hval : dcmValue (JVal.obj existing) (JVal.obj mappings)
      = JVal.obj (dcmToDict existing mappings) := by
    simp [dcmValue, dcmToDict]
  refine ⟨?_, ?_, ?_⟩
  · intro p s h
    rw [hd]
    have hp := getPath_dcmValue p (JVal.obj existing) (JVal.obj mappings) s h
    rw [hval] at hp
    exact hp
  · intro k v h1 h2
    rw [hd, lookupJ_dcmToDict, h1, h2]
  · intro k m1 m2 h1 h2
    rw [hd, lookupJ_dcmToDict, h1, h2]
    simp [dcmValue, dcmToDict]

/-- Witness for C9 at a concrete pair of mapping dicts. -/
theorem ensure_mappings_additive_merge_witness :
    getPath (JVal.obj (desiredMappings
        [("a", JVal.str "1"), ("n", JVal.obj [("x", JVal.str "2")])]
        [("a", JVal.str "9"), ("b", JVal.str "3"),
         ("n", JVal.obj [("x", JVal.str "8"), ("y", JVal.str "4")])]))
      ["n", "x"] = some (JVal.str "2")
    ∧ lookupJ (desiredMappings
        [("a", JVal.str "1"), ("n", JVal.obj [("x", JVal.str "2")])]
        [("a", JVal.str "9"), ("b", JVal.str "3"),
         ("n", JVal.obj [("x", JVal.str "8"), ("y", JVal.str "4")])]) "b"
      = some (JVal.str "3")
    ∧ lookupJ (desiredMappings
        [("a", JVal.str "1"), ("n", JVal.obj [("x", JVal.str "2")])]
        [("a", JVal.str "9"), ("b", JVal.str "3"),
         ("n", JVal.obj [("x", JVal.str "8"), ("y", JVal.str "4")])]) "n"
      = some (JVal.obj (dcmToDict [("x", JVal.str "2")]
          [("x", JVal.str "8"), ("y", JVal.str "4")])) :=
  ⟨(ensure_mappings_additive_merge
      [("a", JVal.str "1"), ("n", JVal.obj [("x", JVal.str "2")])]
      [("a", JVal.str "9"), ("b", JVal.str "3"),
       ("n", JVal.obj [("x", JVal.str "8"), ("y", JVal.str "4")])] rfl).1
      ["n", "x"] "2" (by simp [getPath, lookupJ]),
   (ensure_mappings_additive_merge
      [("a", JVal.str "1"), ("n", JVal.obj [("x", JVal.str "2")])]
      [("a", JVal.str "9"), ("b", JVal.str "3"),
       ("n", JVal.obj [("x", JVal.str "8"), ("y", JVal.str "4")])] rfl).2.1
      "b" (JVal.str "3") (by simp [lookupJ]) (by simp [lookupJ]),
   (ensure_mappings_additive_merge
      [("a", JVal.str "1"), ("n", JVal.obj [("x", JVal.str "2")])]
      [("a", JVal.str "9"), ("b", JVal.str "3"),
       ("n", JVal.obj [("x", JVal.str "8"), ("y", JVal.str "4")])] rfl).2.2
      "n" [("x", JVal.str "2")] [("x", JVal.str "8"), ("y", JVal.str "4")]
      (by simp [lookupJ]) (by simp [lookupJ])⟩

theorem getAttachments_pushes_ok_results (index : String) :
    ∀ (dls : List DlTask), (∀ d ∈ dls, dlStepOk d = true) →
      ∀ (data : PyDict) (did : String), Except.ok (some data) ∈ dls →
        PyDict.lookup data "_id" = some did →
        QueueItem.intent ⟨OpType.update, index, did, some (PyDict.remove data "_id")⟩
          ∈ (getAttachments index dls).1 := by
  intro dls
  induction dls with
  | nil =>
    intro _ data did hmem _
    simp at hmem
  | cons d ds ih =>
    intro hok data did hmem hdid
    have hd : dlStepOk d = true := hok d (List.mem_cons_self d ds)
    have hok2 : ∀ x ∈ ds, dlStepOk x = true := fun x hx => hok x (List.mem_cons_of_mem d hx)
    rcases List.mem_cons.mp hmem with hmem1 | hmem2
    · subst hmem1
      simp only [getAttachments, hdid]
      exact List.mem_cons_self _ _
    · cases d with
      | error e => simp [dlStepOk] at hd
      | ok o =>
        cases o with
        | none =>
          simp only [getAttachments]
          exact ih hok2 data did hmem2 hdid
        | some data2 =>
          simp only [dlStepOk, Option.isSome_iff_exists] at hd
          obtain ⟨did2, hdid2⟩ := hd
          simp only [getAttachments, hdid2]
          exact List.mem_cons_of_mem _ (ih hok2 data did hmem2 hdid)

/-- C10: `_downloads` is appended to and never cleared, so after
`async_bulk` returns, the server still holds every download task
scheduled during the pass (appended to whatever was there before); a
second `async_bulk` call on the same instance therefore drains the
first pass's already-completed tasks again and re-pushes each non-empty
result as an upsert write-intent into the second pass's queue. -/
theorem downloads_never_cleared (srv : ElasticServer) (index now1 now2 : String)
    (snap1 snap2 : PyDict) (feed1 feed2 : List FeedEvent)
    (hok : ∀ d ∈ (asyncBulk srv index snap1 feed1 now1).1.downloads ++
        (getDocs index (snapshotIds snap2) (snapshotTs snap2) now2 feed2).sched,
        dlStepOk d = true) :
    (asyncBulk srv index snap1 feed1 now1).1.downloads
        = srv.downloads
          ++ (getDocs index (snapshotIds snap1) (snapshotTs snap1) now1 feed1).sched
    ∧ (∀ (data : PyDict) (did : String),
        Except.ok (some data) ∈ (asyncBulk srv index snap1 feed1 now1).1.downloads →
        PyDict.lookup data "_id" = some did →
        QueueItem.intent ⟨OpType.update, index, did, some (PyDict.remove data "_id")⟩
          ∈ (asyncBulk (asyncBulk srv index snap1 feed1 now1).1 index
              snap2 feed2 now2).2.puts) := by
  refine ⟨rfl, ?_⟩
  intro data did hmem hdid
  have hmem2 : Except.ok (some data) ∈ (asyncBulk srv index snap1 feed1 now1).1.downloads
      ++ (getDocs index (snapshotIds snap2) (snapshotTs snap2) now2 feed2).sched :=
    List.mem_append_left _ hmem
  have hq := getAttachments_pushes_ok_results index
    ((asyncBulk srv index snap1 feed1 now1).1.downloads
      ++ (getDocs index (snapshotIds snap2) (snapshotTs snap2) now2 feed2).sched)
    hok data did hmem2 hdid
  simp only [asyncBulk]
  exact List.mem_append_right _ hq

/-- Witness for C10: the download completed in the first pass is pushed
again as an upsert by the second pass. -/
theorem downloads_never_cleared_witness :
    QueueItem.intent ⟨OpType.update, "idx", "1",
        some [("_timestamp", "t1"), ("text", "xx")]⟩
      ∈ (asyncBulk
          (asyncBulk mkElasticServer "idx" []
            [FeedEvent.item [("_id", "1")] (some (sampleDl "1"))] "t1").1
          "idx" [] [] "t2").2.puts :=
  (downloads_never_cleared mkElasticServer "idx" "t1" "t2" [] []
      [FeedEvent.item [("_id", "1")] (some (sampleDl "1"))] [] (by decide)).2
    [("_id", "1"), ("_timestamp", "t1"), ("text", "xx")] "1" (by decide) (by decide)
